import Mathlib

/-!
Verification of `ci_bot.py` (Saikrishna1504/build-script).

The Python source is shallowly embedded below: pure helpers become Lean
functions, file-system and network effects become explicit oracle inputs
(file states, API outcomes, remote-listing functions) and action traces.
-/

namespace CiBot

/-! ## String helpers (Python `in`, `lower`, digit runs) -/

/-- Substring test on character lists: does `pat` occur contiguously in the
list?  Mirrors Python's `pat in s` membership test for strings. -/
def containsSubList (pat : List Char) : List Char → Bool
  | [] => pat.isEmpty
  | c :: t => pat.isPrefixOf (c :: t) || containsSubList pat t

/-- Python `pat in s` substring containment on strings. -/
def containsSub (s pat : String) : Bool :=
  containsSubList pat.data s.data

/-- Python `s.lower()` restricted to ASCII, as used on ASCII file names. -/
def lowerStr (s : String) : String :=
  ⟨s.data.map Char.toLower⟩

/-- A nonempty all-digit string (the image of a `\d+` capture group). -/
def isDigits (s : String) : Bool :=
  !s.data.isEmpty && s.data.all Char.isDigit

theorem containsSubList_append_left {pat a : List Char} (b : List Char)
    (h : containsSubList pat a = true) : containsSubList pat (a ++ b) = true := by
  induction a with
  | nil =>
    simp only [containsSubList, List.isEmpty_iff] at h
    subst h
    cases b with
    | nil => simp [containsSubList]
    | cons c t => simp [containsSubList, List.isPrefixOf]
  | cons c t ih =>
    simp only [containsSubList, Bool.or_eq_true] at h ⊢
    rcases h with h | h
    · left
      rw [List.isPrefixOf_iff_prefix] at h ⊢
      exact h.trans (List.cons_append c t b ▸ List.prefix_append (c :: t) b)
    · right
      exact ih h

theorem containsSub_append_left (a b pat : String)
    (h : containsSub a pat = true) : containsSub (a ++ b) pat = true := by
  simpa [containsSub] using containsSubList_append_left b.data h

/-! ## `fetch_progress` (ci_bot.py lines 370–387) -/

/-- State of the build log file as observed by `fetch_progress`: missing,
unreadable (the bare `except` branch of the Python code), or readable with
the given list of lines. -/
inductive LogFile where
  | absent
  | readError
  | lines (ls : List String)

/-- Attempt to match the regular expression `(\d+)% (\d+/\d+)` at the start
of `cs`: a maximal digit run, then the literal `% `, then digits, `/`,
digits.  Returns the two capture groups on success.  (Greedy `\d+` followed
by a non-digit literal cannot succeed by backtracking, so maximal runs are
faithful to `re.search` at a fixed start position.) -/
def matchAt (cs : List Char) : Option (String × String) :=
  if (cs.takeWhile Char.isDigit).isEmpty then none else
  match cs.dropWhile Char.isDigit with
  | '%' :: ' ' :: r2 =>
    if (r2.takeWhile Char.isDigit).isEmpty then none else
    match r2.dropWhile Char.isDigit with
    | '/' :: r4 =>
      if (r4.takeWhile Char.isDigit).isEmpty then none else
      some (⟨cs.takeWhile Char.isDigit⟩,
            ⟨r2.takeWhile Char.isDigit ++ '/' :: r4.takeWhile Char.isDigit⟩)
    | _ => none
  | _ => none

/-- `re.search` of the progress pattern over one line: try every start
position from left to right. -/
def searchLine : List Char → Option (String × String)
  | [] => none
  | c :: t =>
    match matchAt (c :: t) with
    | some r => some r
    | none => searchLine t

/-- Scan lines in the given order and return the formatted progress string
of the first line that matches.  `fetch_progress` passes the reversed line
list, so this picks the last matching line of the log. -/
def firstMatch : List String → Option String
  | [] => none
  | l :: rest =>
    match searchLine l.data with
    | some (g1, g2) => some (g1 ++ "% (" ++ g2 ++ ")")
    | none => firstMatch rest

/-- `fetch_progress` from `ci_bot.py`: a missing file or a read error yields
`"Initializing..."`; otherwise the last line matching `(\d+)% (\d+/\d+)` is
reported as `"<percent>% (<done>/<total>)"`, and
`"Initializing the build system..."` when no line matches. -/
def fetch_progress : LogFile → String
  | .absent => "Initializing..."
  | .readError => "Initializing..."
  | .lines ls =>
    match firstMatch ls.reverse with
    | some s => s
    | none => "Initializing the build system..."

theorem firstMatch_eq_none {L : List String}
    (h : ∀ l ∈ L, searchLine l.data = none) : firstMatch L = none := by
  induction L with
  | nil => rfl
  | cons l rest ih =>
    have hl := h l (by simp)
    simp only [firstMatch, hl]
    exact ih fun x hx => h x (by simp [hx])

theorem firstMatch_append_of_match (A B : List String) (l : String)
    (g1 g2 : String) (hA : ∀ a ∈ A, searchLine a.data = none)
    (hl : searchLine l.data = some (g1, g2)) :
    firstMatch (A ++ l :: B) = some (g1 ++ "% (" ++ g2 ++ ")") := by
  induction A with
  | nil => simp [firstMatch, hl]
  | cons a A ih =>
    have ha := hA a (by simp)
    simp only [List.cons_append, firstMatch, ha]
    exact ih fun x hx => hA x (by simp [hx])

theorem strMkAppend (a b : List Char) : (⟨a⟩ : String) ++ ⟨b⟩ = ⟨a ++ b⟩ := rfl

theorem matchAt_digits {cs : List Char} {g1 g2 : String}
    (h : matchAt cs = some (g1, g2)) :
    isDigits g1 = true ∧
    ∃ d t : String, isDigits d = true ∧ isDigits t = true ∧ g2 = d ++ "/" ++ t := by
  have hdig : ∀ (l : List Char), (¬ (l.takeWhile Char.isDigit).isEmpty = true) →
      isDigits ⟨l.takeWhile Char.isDigit⟩ = true := by
    intro l hl
    simp only [isDigits, Bool.and_eq_true, Bool.not_eq_true']
    refine ⟨by revert hl; cases (l.takeWhile Char.isDigit).isEmpty <;> simp, ?_⟩
    exact List.all_eq_true.mpr fun x hx => List.mem_takeWhile_imp hx
  unfold matchAt at h
  split at h
  · exact absurd h (by simp)
  next h1 =>
  split at h
  next r2 hr2 =>
    split at h
    · exact absurd h (by simp)
    next h2 =>
    split at h
    next r4 hr4 =>
      split at h
      · exact absurd h (by simp)
      next h3 =>
      injection h with h
      injection h with hg1 hg2
      refine ⟨hg1 ▸ hdig cs h1, ⟨r2.takeWhile Char.isDigit⟩, ⟨r4.takeWhile Char.isDigit⟩,
        hdig r2 h2, hdig r4 h3, ?_⟩
      rw [← hg2]
      apply String.ext
      have hslash : ("/" : String).data = ['/'] := rfl
      simp [String.data_append, hslash]
    · exact absurd h (by simp)
  · exact absurd h (by simp)

theorem searchLine_digits {cs : List Char} {g1 g2 : String}
    (h : searchLine cs = some (g1, g2)) :
    isDigits g1 = true ∧
    ∃ d t : String, isDigits d = true ∧ isDigits t = true ∧ g2 = d ++ "/" ++ t := by
  induction cs with
  | nil => exact absurd h (by simp [searchLine])
  | cons c t ih =>
    simp only [searchLine] at h
    split at h
    next r hm =>
      cases h
      exact matchAt_digits hm
    · exact ih h

theorem firstMatch_digits {L : List String} {s : String}
    (h : firstMatch L = some s) :
    ∃ p d t : String, isDigits p = true ∧ isDigits d = true ∧ isDigits t = true ∧
      s = p ++ "% (" ++ d ++ "/" ++ t ++ ")" := by
  induction L with
  | nil => exact absurd h (by simp [firstMatch])
  | cons l rest ih =>
    simp only [firstMatch] at h
    split at h
    next g1 g2 hm =>
      cases h
      obtain ⟨h1, d, t, hd, ht, hg2⟩ := searchLine_digits hm
      exact ⟨g1, d, t, h1, hd, ht, by rw [hg2]; simp [String.append_assoc]⟩
    · exact ih h

/-- Claim C2, counterexample to the claim as stated: the absent-file case and
the present-but-unmatched case (here the empty file) do not return one fixed
initializing sentinel — they return two different strings. -/
theorem fetch_progress_two_sentinels :
    fetch_progress .absent ≠ fetch_progress (.lines []) := by decide

/-- Claim C2 (amended): `fetch_progress` returns the last line matching the
`<percent>% <done>/<total>` pattern formatted as `<percent>% (<done>/<total>)`;
when the file is absent it returns the sentinel `"Initializing..."`, and when
the file is present but no line matches (including an empty file) it returns
the distinct sentinel `"Initializing the build system..."`. -/
theorem fetch_progress_last_match (ls : List String) (i : Nat) (h : i < ls.length)
    (g1 g2 : String)
    (hmatch : searchLine (ls.get ⟨i, h⟩).data = some (g1, g2))
    (hlast : ∀ j (hj : j < ls.length), i < j → searchLine (ls.get ⟨j, hj⟩).data = none) :
    fetch_progress (.lines ls) = g1 ++ "% (" ++ g2 ++ ")" ∧
    fetch_progress .absent = "Initializing..." ∧
    ∀ ls2 : List String, (∀ l ∈ ls2, searchLine l.data = none) →
      fetch_progress (.lines ls2) = "Initializing the build system..." := by
  refine ⟨?_, rfl, ?_⟩
  · have hsplit : ls = ls.take i ++ ls.drop i := (List.take_append_drop i ls).symm
    have hdrop : ls.drop i = ls.get ⟨i, h⟩ :: ls.drop (i + 1) := by
      rw [List.get_eq_getElem]
      exact List.drop_eq_getElem_cons h
    have hrev : ls.reverse =
        (ls.drop (i + 1)).reverse ++ ls.get ⟨i, h⟩ :: (ls.take i).reverse := by
      conv_lhs => rw [hsplit, hdrop]
      rw [List.reverse_append, List.reverse_cons]
      simp [List.append_assoc]
    have hnone : ∀ a ∈ (ls.drop (i + 1)).reverse, searchLine a.data = none := by
      intro a ha
      rw [List.mem_reverse] at ha
      obtain ⟨j, hj, rfl⟩ := List.mem_iff_getElem.mp ha
      have hlen : i + 1 + j < ls.length := by
        have := hj
        rw [List.length_drop] at this
        omega
      rw [List.getElem_drop]
      have := hlast (i + 1 + j) hlen (by omega)
      rw [List.get_eq_getElem] at this
      exact this
    have hfm : firstMatch ls.reverse = some (g1 ++ "% (" ++ g2 ++ ")") := by
      rw [hrev]
      exact firstMatch_append_of_match _ _ _ _ _ hnone hmatch
    simp [fetch_progress, hfm]
  · intro ls2 h2
    have hfm : firstMatch ls2.reverse = none :=
      firstMatch_eq_none fun l hl => h2 l (List.mem_reverse.mp hl)
    simp [fetch_progress, hfm]

/-- Witness for the amended C2 theorem at concrete inputs. -/
theorem fetch_progress_last_match_witness :
    fetch_progress (.lines ["x", "10% 3/30", "done"]) = "10% (3/30)" ∧
    fetch_progress (.lines ["nothing"]) = "Initializing the build system..." := by
  have h := fetch_progress_last_match ["x", "10% 3/30", "done"] 1 (by decide) "10" "3/30"
    (by decide) (by decide)
  exact ⟨h.1, h.2.2 ["nothing"] (by decide)⟩

/-- Claim C10: `fetch_progress` is total over every file state; the absent and
read-error cases return `"Initializing..."`, a present file with no matching
line returns the distinct sentinel `"Initializing the build system..."`, and
every return value is one of the two sentinels or a string of the shape
`<digits>% (<digits>/<digits>)`. -/
theorem fetch_progress_classify (f : LogFile) :
    (fetch_progress .absent = "Initializing..." ∧
     fetch_progress .readError = "Initializing...") ∧
    ("Initializing..." : String) ≠ "Initializing the build system..." ∧
    (fetch_progress f = "Initializing..." ∨
     fetch_progress f = "Initializing the build system..." ∨
     ∃ p d t : String, isDigits p = true ∧ isDigits d = true ∧ isDigits t = true ∧
       fetch_progress f = p ++ "% (" ++ d ++ "/" ++ t ++ ")") ∧
    (∀ ls : List String, (∀ l ∈ ls, searchLine l.data = none) →
       fetch_progress (.lines ls) = "Initializing the build system...") := by
  refine ⟨⟨rfl, rfl⟩, by decide, ?_, ?_⟩
  · cases f with
    | absent => exact Or.inl rfl
    | readError => exact Or.inl rfl
    | lines ls =>
      cases hfm : firstMatch ls.reverse with
      | none => exact Or.inr (Or.inl (by simp [fetch_progress, hfm]))
      | some s =>
        obtain ⟨p, d, t, hp, hd, ht, hs⟩ := firstMatch_digits hfm
        exact Or.inr (Or.inr ⟨p, d, t, hp, hd, ht, by simp [fetch_progress, hfm, hs]⟩)
  · intro ls h2
    have hfm : firstMatch ls.reverse = none :=
      firstMatch_eq_none fun l hl => h2 l (List.mem_reverse.mp hl)
    simp [fetch_progress, hfm]

/-- Witness for the C10 theorem at a concrete input. -/
theorem fetch_progress_classify_witness :
    fetch_progress (.lines ["no match here"]) = "Initializing the build system..." :=
  (fetch_progress_classify (.lines ["no match here"])).2.2.2 ["no match here"] (by decide)

/-! ## `upload_file` (ci_bot.py lines 566–576) -/

/-- Python truthiness of an `Optional[str]`: `None` and the empty string are
falsy.  `upload_file` tests both service results this way. -/
def strTruthy : Option String → Bool
  | none => false
  | some s => !s.isEmpty

/-- Oracle inputs to `upload_file`: the configured remote name and what each
service call would return (`upload_rclone` and `upload_gofile` each return a
url string or `None`). -/
structure UploadEnv where
  rcloneRemote : String
  rcloneOutcome : Option String
  gofileOutcome : Option String

/-- Result of one `upload_file` call together with which services were
actually invoked. -/
structure UploadRun where
  result : String
  rcloneAttempted : Bool
  gofileAttempted : Bool
deriving DecidableEq

/-- `upload_file` from `ci_bot.py`: try rclone first when `RCLONE_REMOTE` is
configured (a nonempty string) and return its url when truthy; otherwise fall
back to GoFile, and when that result is falsy too return the literal
`"Upload failed"`. -/
def upload_file (env : UploadEnv) : UploadRun :=
  if !env.rcloneRemote.isEmpty then
    if strTruthy env.rcloneOutcome then
      { result := env.rcloneOutcome.getD ""
        rcloneAttempted := true
        gofileAttempted := false }
    else
      { result := if strTruthy env.gofileOutcome then env.gofileOutcome.getD "" else "Upload failed"
        rcloneAttempted := true
        gofileAttempted := true }
  else
    { result := if strTruthy env.gofileOutcome then env.gofileOutcome.getD "" else "Upload failed"
      rcloneAttempted := false
      gofileAttempted := true }

/-- Claim C1, counterexample to the claim as stated: with `RCLONE_REMOTE`
unconfigured and the GoFile upload failing, `upload_file` returns the literal
`"Upload failed"` although the rclone path was never attempted — so the
failure string is not returned only when both paths are attempted and fail. -/
theorem upload_file_counterexample :
    (upload_file ⟨"", none, none⟩).result = "Upload failed" ∧
    (upload_file ⟨"", none, none⟩).rcloneAttempted = false := by decide

/-- Claim C1 (amended): `upload_file` returns the rclone result whenever
`RCLONE_REMOTE` is configured and the rclone attempt yields a truthy url;
returns the GoFile result when `RCLONE_REMOTE` is unconfigured or the rclone
attempt reports failure; and returns the literal `"Upload failed"` exactly
when the GoFile attempt fails and every configured path before it failed —
which can happen with only the GoFile path attempted. -/
theorem upload_file_fallback (remote : String) (rres gres : Option String)
    (hr : rres ≠ some "Upload failed") (hg : gres ≠ some "Upload failed") :
    ((upload_file ⟨remote, rres, gres⟩).rcloneAttempted = !remote.isEmpty) ∧
    ((upload_file ⟨remote, rres, gres⟩).gofileAttempted
        = (remote.isEmpty || !strTruthy rres)) ∧
    (remote.isEmpty = false → strTruthy rres = true →
      (upload_file ⟨remote, rres, gres⟩).result = rres.getD "") ∧
    (remote.isEmpty = true → strTruthy gres = true →
      (upload_file ⟨remote, rres, gres⟩).result = gres.getD "") ∧
    (remote.isEmpty = false → strTruthy rres = false → strTruthy gres = true →
      (upload_file ⟨remote, rres, gres⟩).result = gres.getD "") ∧
    ((upload_file ⟨remote, rres, gres⟩).result = "Upload failed" ↔
      strTruthy gres = false ∧ (remote.isEmpty = true ∨ strTruthy rres = false)) := by
  have hrval : strTruthy rres = true → ¬ rres.getD "" = "Upload failed" := by
    intro ht heq
    cases rres with
    | none => simp [strTruthy] at ht
    | some s => exact hr (by simp at heq; rw [heq])
  have hgval : strTruthy gres = true → ¬ gres.getD "" = "Upload failed" := by
    intro ht heq
    cases gres with
    | none => simp [strTruthy] at ht
    | some s => exact hg (by simp at heq; rw [heq])
  cases hrem : remote.isEmpty <;> cases hrt : strTruthy rres <;> cases hgt : strTruthy gres <;>
    simp_all [upload_file]

/-- Witness for the amended C1 theorem: a configured remote with a successful
rclone transfer returns the rclone url. -/
theorem upload_file_fallback_witness :
    (upload_file ⟨"gdrive", some "https://drive/x.zip", none⟩).result
      = "https://drive/x.zip" :=
  (upload_file_fallback "gdrive" (some "https://drive/x.zip") none (by decide)
    (by decide)).2.2.1 rfl rfl

/-! ## `find_rom_zip` (ci_bot.py lines 578–592) -/

/-- A file in the output directory as `find_rom_zip` observes it: its base
name, its size in bytes (`st_size`) and its modification time (`st_mtime`). -/
structure OutFile where
  name : String
  size : Nat
  mtime : Nat
deriving DecidableEq

/-- Glob match for the patterns used here, all of the shape
`<stem>-*.zip`: the name decomposes as the pattern's fixed beginning, any
middle, and its fixed ending. -/
def globMatch (pre suf name : String) : Bool :=
  decide (pre.data.length + suf.data.length ≤ name.data.length) &&
    pre.data.isPrefixOf name.data && suf.data.isSuffixOf name.data

/-- The recognized ROM archive patterns, in the order the code tries them. -/
def romPatterns : List (String × String) :=
  [("axion-", ".zip"), ("lineage-", ".zip"), ("voltage-", ".zip"),
   ("arrow-", ".zip"), ("evolution-", ".zip")]

/-- A candidate survives the filters of `find_rom_zip` for one pattern: it
matches the glob, its lowercased name contains neither `"ota"` nor `"img"`,
and it is strictly larger than 500 MB. -/
def qualifies (p : String × String) (f : OutFile) : Bool :=
  globMatch p.1 p.2 f.name &&
  !(containsSub (lowerStr f.name) "ota") &&
  !(containsSub (lowerStr f.name) "img") &&
  decide (500 * 1024 * 1024 < f.size)

/-- One step of Python's `max(..., key=mtime)`: keep the current best on
ties, replace it only on a strictly larger key. -/
def pickNewer (best g : OutFile) : OutFile :=
  if best.mtime < g.mtime then g else best

/-- Python `max(files, key=lambda f: f.stat().st_mtime)` over a listing,
`none` when the listing is empty. -/
def newestByMtime : List OutFile → Option OutFile
  | [] => none
  | f :: rest => some (rest.foldl pickNewer f)

/-- The pattern loop of `find_rom_zip`: for each pattern in order, filter the
directory; the first pattern with survivors yields its newest survivor. -/
def findRomZipAux (dir : List OutFile) : List (String × String) → Option String
  | [] => none
  | p :: ps =>
    match newestByMtime (dir.filter (qualifies p)) with
    | some f => some f.name
    | none => findRomZipAux dir ps

/-- `find_rom_zip` from `ci_bot.py` over a directory listing. -/
def find_rom_zip (dir : List OutFile) : Option String :=
  findRomZipAux dir romPatterns

theorem foldl_pickNewer_spec (rest : List OutFile) : ∀ best : OutFile,
    (List.foldl pickNewer best rest = best ∨ List.foldl pickNewer best rest ∈ rest) ∧
    best.mtime ≤ (List.foldl pickNewer best rest).mtime ∧
    ∀ g ∈ rest, g.mtime ≤ (List.foldl pickNewer best rest).mtime := by
  induction rest with
  | nil => exact fun best => ⟨Or.inl rfl, le_refl _, by simp⟩
  | cons a t ih =>
    intro best
    simp only [List.foldl_cons]
    obtain ⟨hmem, hb, hall⟩ := ih (pickNewer best a)
    refine ⟨?_, ?_, ?_⟩
    · rcases hmem with h | h
      · rw [h]
        unfold pickNewer
        split
        · exact Or.inr (by simp)
        · exact Or.inl rfl
      · exact Or.inr (List.mem_cons_of_mem a h)
    · refine le_trans ?_ hb
      unfold pickNewer
      split <;> omega
    · intro g hg
      rcases List.mem_cons.mp hg with rfl | hg
      · refine le_trans ?_ hb
        unfold pickNewer
        split <;> omega
      · exact hall g hg

theorem newestByMtime_spec {l : List OutFile} {f : OutFile}
    (h : newestByMtime l = some f) : f ∈ l ∧ ∀ g ∈ l, g.mtime ≤ f.mtime := by
  cases l with
  | nil => exact absurd h (by simp [newestByMtime])
  | cons a t =>
    simp only [newestByMtime, Option.some_inj] at h
    subst h
    obtain ⟨hmem, hb, hall⟩ := foldl_pickNewer_spec t a
    refine ⟨?_, ?_⟩
    · rcases hmem with h | h
      · rw [h]; simp
      · exact List.mem_cons_of_mem a h
    · intro g hg
      rcases List.mem_cons.mp hg with rfl | hg
      · exact hb
      · exact hall g hg

theorem newestByMtime_isSome {l : List OutFile} (h : l ≠ []) :
    ∃ f, newestByMtime l = some f := by
  cases l with
  | nil => exact absurd rfl h
  | cons a t => exact ⟨_, rfl⟩

theorem findRomZipAux_none (dir : List OutFile) :
    ∀ ps, (∀ p ∈ ps, dir.filter (qualifies p) = []) → findRomZipAux dir ps = none := by
  intro ps
  induction ps with
  | nil => exact fun _ => rfl
  | cons p qs ih =>
    intro h
    have hp := h p (by simp)
    simp only [findRomZipAux, hp, newestByMtime]
    exact ih fun q hq => h q (by simp [hq])

theorem findRomZipAux_sel (dir : List OutFile) (ps1 : List (String × String))
    (p : String × String) (ps2 : List (String × String))
    (h1 : ∀ q ∈ ps1, dir.filter (qualifies q) = [])
    (h2 : dir.filter (qualifies p) ≠ []) :
    ∃ f, newestByMtime (dir.filter (qualifies p)) = some f ∧
      findRomZipAux dir (ps1 ++ p :: ps2) = some f.name := by
  induction ps1 with
  | nil =>
    obtain ⟨f, hf⟩ := newestByMtime_isSome h2
    exact ⟨f, hf, by simp [findRomZipAux, hf]⟩
  | cons q qs ih =>
    have hq := h1 q (by simp)
    obtain ⟨f, hf, hres⟩ := ih fun r hr => h1 r (by simp [hr])
    refine ⟨f, hf, ?_⟩
    simp only [List.cons_append, findRomZipAux, hq, newestByMtime]
    exact hres

theorem findRomZipAux_sound (dir : List OutFile) :
    ∀ ps n, findRomZipAux dir ps = some n →
      ∃ p ∈ ps, ∃ f ∈ dir, f.name = n ∧ qualifies p f = true := by
  intro ps
  induction ps with
  | nil => exact fun n h => absurd h (by simp [findRomZipAux])
  | cons p qs ih =>
    intro n h
    simp only [findRomZipAux] at h
    split at h
    next f hf =>
      cases h
      have hmem := (newestByMtime_spec hf).1
      rw [List.mem_filter] at hmem
      exact ⟨p, by simp, f, hmem.1, rfl, hmem.2⟩
    next hf =>
      obtain ⟨q, hq, f, hfd, hn, hql⟩ := ih n h
      exact ⟨q, by simp [hq], f, hfd, hn, hql⟩

/-- Claim C3, counterexample to the claim as stated: a qualifying
`lineage-*.zip` file is strictly newer than a qualifying `axion-*.zip` file,
yet `find_rom_zip` returns the axion file, because patterns are tried in
priority order and the newest file is only taken within the first pattern
that has any qualifying candidate — not across all patterns. -/
theorem find_rom_zip_counterexample :
    find_rom_zip [⟨"axion-1.zip", 600 * 1024 * 1024, 10⟩,
                  ⟨"lineage-2.zip", 600 * 1024 * 1024, 20⟩] = some "axion-1.zip" ∧
    qualifies ("lineage-", ".zip") ⟨"lineage-2.zip", 600 * 1024 * 1024, 20⟩ = true ∧
    ("lineage-", ".zip") ∈ romPatterns ∧ (10 : Nat) < 20 := by decide

/-- Claim C3 (amended): discovery excludes every candidate whose lowercased
name contains `"ota"` or `"img"` and every candidate of size at most 500 MB;
the recognized patterns are tried in their listed priority order and the
result is the most recently modified qualifying candidate of the first
pattern that has any qualifying candidate; there is no result when no
candidate qualifies for any pattern. -/
theorem find_rom_zip_priority (dir : List OutFile)
    (ps1 ps2 : List (String × String)) (p : String × String)
    (hsplit : romPatterns = ps1 ++ p :: ps2)
    (h1 : ∀ q ∈ ps1, dir.filter (qualifies q) = [])
    (h2 : dir.filter (qualifies p) ≠ []) :
    (∃ f, newestByMtime (dir.filter (qualifies p)) = some f ∧
       find_rom_zip dir = some f.name ∧ f ∈ dir ∧ qualifies p f = true ∧
       ∀ g ∈ dir, qualifies p g = true → g.mtime ≤ f.mtime) ∧
    (∀ n, find_rom_zip dir = some n →
       ∃ f ∈ dir, f.name = n ∧
         containsSub (lowerStr f.name) "ota" = false ∧
         containsSub (lowerStr f.name) "img" = false ∧
         500 * 1024 * 1024 < f.size) ∧
    (∀ dir2 : List OutFile, (∀ q ∈ romPatterns, dir2.filter (qualifies q) = []) →
       find_rom_zip dir2 = none) := by
  refine ⟨?_, ?_, ?_⟩
  · obtain ⟨f, hf, hres⟩ := findRomZipAux_sel dir ps1 p ps2 h1 h2
    have hspec := newestByMtime_spec hf
    have hfil := List.mem_filter.mp hspec.1
    refine ⟨f, hf, ?_, hfil.1, hfil.2, ?_⟩
    · show findRomZipAux dir romPatterns = some f.name
      rw [hsplit]
      exact hres
    · intro g hg hq
      exact hspec.2 g (List.mem_filter.mpr ⟨hg, hq⟩)
  · intro n hn
    obtain ⟨q, hq, f, hfd, hname, hql⟩ := findRomZipAux_sound dir romPatterns n hn
    simp only [qualifies, Bool.and_eq_true, Bool.not_eq_true', decide_eq_true_eq] at hql
    exact ⟨f, hfd, hname, hql.1.1.2, hql.1.2, hql.2⟩
  · intro dir2 h
    exact findRomZipAux_none dir2 romPatterns h

/-- Witness for the amended C3 theorem: a single qualifying lineage archive
is found through the second pattern. -/
theorem find_rom_zip_priority_witness :
    find_rom_zip [⟨"lineage-x.zip", 600 * 1024 * 1024, 5⟩] = some "lineage-x.zip" := by
  obtain ⟨f, hf, hres, -, -, -⟩ :=
    (find_rom_zip_priority [⟨"lineage-x.zip", 600 * 1024 * 1024, 5⟩]
      [("axion-", ".zip")]
      [("voltage-", ".zip"), ("arrow-", ".zip"), ("evolution-", ".zip")]
      ("lineage-", ".zip") rfl (by decide) (by decide)).1
  have heval : newestByMtime ([⟨"lineage-x.zip", 600 * 1024 * 1024, 5⟩].filter
      (qualifies ("lineage-", ".zip"))) =
      some ⟨"lineage-x.zip", 600 * 1024 * 1024, 5⟩ := by decide
  rw [heval] at hf
  cases hf
  exact hres

/-! ## `upload_rclone` (ci_bot.py lines 477–564) -/

/-- The file names proposed by `upload_rclone`: the original `stem ++ ext`
for version 0, `stem ++ " (k)" ++ ext` for version `k ≥ 1`, where
`(stem, ext)` is `os.path.splitext` of the original file name. -/
def versionedName (stem ext : String) : Nat → String
  | 0 => stem ++ ext
  | k + 1 => stem ++ " (" ++ toString (k + 1) ++ ")" ++ ext

/-- The `while True` collision loop of `upload_rclone`: while the remote
listing (`rclone lsf`) reports the current name as present, bump the version
counter and rebuild the name; `fuel` bounds the iterations modelled (the
Python loop itself is unbounded). -/
def chooseNameAux (present : String → Bool) (stem ext : String) :
    Nat → Nat → String → Option (String × Nat)
  | 0, _, _ => none
  | fuel + 1, version, name =>
    if present name then
      chooseNameAux present stem ext fuel (version + 1)
        (stem ++ " (" ++ toString (version + 1) ++ ")" ++ ext)
    else some (name, version)

/-- Entry point of the collision loop, starting from the original name. -/
def chooseName (present : String → Bool) (stem ext : String) (fuel : Nat) :
    Option (String × Nat) :=
  chooseNameAux present stem ext fuel 0 (stem ++ ext)

/-- Externally visible steps of `upload_rclone`: duplicating the local file
under a versioned name, the rclone copy, deleting the duplicate, and the
shareable-link request. -/
inductive RAct where
  | copyLocal (src dst : String)
  | transferTo (name : String)
  | removeLocal (path : String)
  | getLink (path : String)
deriving DecidableEq

/-- Result of one modelled `upload_rclone` call: the chosen remote name, the
ordered side effects, and the returned url (`none` models Python `None`). -/
structure RcloneRun where
  chosen : String
  actions : List RAct
  result : Option String
deriving DecidableEq

/-- The remote destination path `base_path/<name>`. -/
def remotePath (basePath name : String) : String :=
  basePath ++ "/" ++ name

/-- `upload_rclone` from `ci_bot.py`: choose a collision-free name, copy the
local file under that name when it differs from the original, transfer, then
remove the duplicate (before the return-code check, hence regardless of
transfer success); on success return the shareable link, falling back to the
raw remote path when link retrieval fails. -/
def upload_rclone (present : String → Bool) (basePath stem ext : String)
    (fuel : Nat) (transferOk : Bool) (linkOut : Option String) : Option RcloneRun :=
  match chooseName present stem ext fuel with
  | none => none
  | some (name, _) =>
    some { chosen := name
           actions :=
             (if name ≠ stem ++ ext then [RAct.copyLocal (stem ++ ext) name] else []) ++
             [RAct.transferTo name] ++
             (if name ≠ stem ++ ext then [RAct.removeLocal name] else []) ++
             (if transferOk then [RAct.getLink (remotePath basePath name)] else [])
           result :=
             if transferOk then some (linkOut.getD (remotePath basePath name)) else none }

theorem chooseNameAux_spec (present : String → Bool) (stem ext : String) :
    ∀ (fuel version : Nat) (n : String) (k : Nat),
      (∀ j, j < version → present (versionedName stem ext j) = true) →
      chooseNameAux present stem ext fuel version (versionedName stem ext version)
        = some (n, k) →
      n = versionedName stem ext k ∧ present n = false ∧ version ≤ k ∧
        ∀ j, j < k → present (versionedName stem ext j) = true := by
  intro fuel
  induction fuel with
  | zero =>
    intro version n k _ h
    exact absurd h (by simp [chooseNameAux])
  | succ fuel ih =>
    intro version n k hprev h
    simp only [chooseNameAux] at h
    split at h
    next hp =>
      have hprev' : ∀ j, j < version + 1 → present (versionedName stem ext j) = true := by
        intro j hj
        rcases Nat.lt_succ_iff_lt_or_eq.mp hj with h' | h'
        · exact hprev j h'
        · subst h'; exact hp
      have hrec := ih (version + 1) n k hprev' h
      exact ⟨hrec.1, hrec.2.1, by omega, hrec.2.2.2⟩
    next hp =>
      cases h
      exact ⟨rfl, by simpa using hp, le_refl _, hprev⟩

theorem chooseName_spec (present : String → Bool) (stem ext : String) (fuel : Nat)
    (n : String) (k : Nat) (h : chooseName present stem ext fuel = some (n, k)) :
    n = versionedName stem ext k ∧ present n = false ∧
      ∀ j, j < k → present (versionedName stem ext j) = true := by
  have hs := chooseNameAux_spec present stem ext fuel 0 n k
    (fun j hj => absurd hj (Nat.not_lt_zero j)) h
  exact ⟨hs.1, hs.2.1, hs.2.2.2⟩

/-- Claim C4: the collision-avoidance of `upload_rclone` proposes
`x (1).ext`, `x (2).ext`, … with an incrementing counter, settles on the
first name the listing reports unused (so every earlier version was reported
present, and the original name being present forces a versioned name), never
transfers under a name reported as present, and when a versioned name is
chosen the local file is duplicated under it before the transfer and the
duplicate removed after the transfer. -/
theorem upload_rclone_collision (present : String → Bool) (basePath stem ext : String)
    (fuel : Nat) (transferOk : Bool) (linkOut : Option String) (run : RcloneRun)
    (hrun : upload_rclone present basePath stem ext fuel transferOk linkOut = some run) :
    (∃ k, run.chosen = versionedName stem ext k ∧ present run.chosen = false ∧
       (∀ j, j < k → present (versionedName stem ext j) = true) ∧
       (present (stem ++ ext) = true → k ≠ 0)) ∧
    (∃ pre post, run.actions = pre ++ RAct.transferTo run.chosen :: post ∧
       (run.chosen ≠ stem ++ ext →
         RAct.copyLocal (stem ++ ext) run.chosen ∈ pre ∧
         RAct.removeLocal run.chosen ∈ post)) := by
  unfold upload_rclone at hrun
  split at hrun
  · exact absurd hrun (by simp)
  next name ver hch =>
    cases hrun
    obtain ⟨hn, hp, hmin⟩ := chooseName_spec present stem ext fuel name ver hch
    constructor
    · refine ⟨ver, hn, hp, hmin, ?_⟩
      intro hpres hk0
      subst hk0
      rw [hn] at hp
      unfold versionedName at hp
      rw [hp] at hpres
      exact absurd hpres (by simp)
    · refine ⟨(if name ≠ stem ++ ext then [RAct.copyLocal (stem ++ ext) name] else []),
        (if name ≠ stem ++ ext then [RAct.removeLocal name] else []) ++
          (if transferOk then [RAct.getLink (remotePath basePath name)] else []), ?_, ?_⟩
      · show (if name ≠ stem ++ ext then [RAct.copyLocal (stem ++ ext) name] else []) ++
            [RAct.transferTo name] ++
            (if name ≠ stem ++ ext then [RAct.removeLocal name] else []) ++
            (if transferOk then [RAct.getLink (remotePath basePath name)] else []) = _
        simp [List.append_assoc]
      · intro hne
        simp only [if_pos hne]
        exact ⟨by simp, by simp⟩

/-- Witness for the C4 theorem: with `rom.zip` and `rom (1).zip` reported
present, the transfer happens under `rom (2).zip`, with a local duplicate
created before the transfer and removed after it. -/
theorem upload_rclone_collision_witness :
    ∃ run : RcloneRun,
      upload_rclone (fun n => n == "rom.zip" || n == "rom (1).zip") "gd:" "rom" ".zip"
        5 true (some "https://link") = some run ∧
      run.chosen = "rom (2).zip" ∧
      ∃ pre post, run.actions = pre ++ RAct.transferTo run.chosen :: post ∧
        RAct.copyLocal ("rom" ++ ".zip") run.chosen ∈ pre ∧
        RAct.removeLocal run.chosen ∈ post := by
  have h := upload_rclone_collision (fun n => n == "rom.zip" || n == "rom (1).zip") "gd:"
    "rom" ".zip" 5 true (some "https://link")
    ⟨"rom (2).zip",
     [RAct.copyLocal "rom.zip" "rom (2).zip", RAct.transferTo "rom (2).zip",
      RAct.removeLocal "rom (2).zip", RAct.getLink "gd:/rom (2).zip"],
     some "https://link"⟩ (by decide)
  obtain ⟨pre, post, hact, hcr⟩ := h.2
  exact ⟨_, by decide, rfl, pre, post, hact, (hcr (by decide)).1, (hcr (by decide)).2⟩

/-! ## Post-build success/failure classification (ci_bot.py lines 825–845) -/

/-- The two chat targets: the primary channel and the error-log channel. -/
inductive Channel where
  | primary
  | errorChannel
deriving DecidableEq

/-- Outward steps of the post-build branch of `main`. -/
inductive PostAction where
  | editFailureText
  | editFailureCaption
  | sendDoc (path : String) (chat : Channel)
  | successFlow
deriving DecidableEq

/-- Observable state when the build child process has exited. -/
structure PostState where
  errorLogExists : Bool
  errorLogSize : Nat
  exitCode : Int
  buildLogExists : Bool
  useBanner : Bool

/-- The sentinel error-log path checked by `main`. -/
def errorLogPath : String := "out/error.log"

/-- The build-log path forwarded on failure. -/
def buildLogPath : String := "build.log"

/-- The failure test of `main`: the build failed iff `out/error.log` exists
and has positive size.  The child's exit code is part of the state but is
never consulted by the code. -/
def buildFailed (st : PostState) : Bool :=
  st.errorLogExists && decide (0 < st.errorLogSize)

/-- The post-build branch of `main`: on failure, edit the status message to
the failure text (caption when a banner was sent), send the error log to the
error channel, and send the build log to the error channel when it exists;
otherwise continue with the success flow. -/
def postBuildActions (st : PostState) : List PostAction :=
  if buildFailed st then
    [if st.useBanner then PostAction.editFailureCaption else PostAction.editFailureText] ++
    [PostAction.sendDoc errorLogPath Channel.errorChannel] ++
    (if st.buildLogExists then [PostAction.sendDoc buildLogPath Channel.errorChannel] else [])
  else [PostAction.successFlow]

/-- Claim C5: after the build child exits, failure is classified exactly by
the sentinel error log existing and being non-empty, independent of the exit
code — in particular a zero exit code with a non-empty error log is a
failure — and failure triggers the failure notification plus forwarding of
the error log and (when present) the build log to the error channel. -/
theorem build_failure_classification (e bl banner : Bool) (n : Nat) (c c' : Int) :
    (buildFailed ⟨e, n, c, bl, banner⟩ = buildFailed ⟨e, n, c', bl, banner⟩) ∧
    (postBuildActions ⟨e, n, c, bl, banner⟩ = postBuildActions ⟨e, n, c', bl, banner⟩) ∧
    (buildFailed ⟨e, n, c, bl, banner⟩ = true ↔ e = true ∧ 0 < n) ∧
    (e = true → 0 < n → buildFailed ⟨e, n, 0, bl, banner⟩ = true) ∧
    (buildFailed ⟨e, n, c, bl, banner⟩ = true →
      (if banner then PostAction.editFailureCaption else PostAction.editFailureText)
          ∈ postBuildActions ⟨e, n, c, bl, banner⟩ ∧
      PostAction.sendDoc errorLogPath Channel.errorChannel
          ∈ postBuildActions ⟨e, n, c, bl, banner⟩ ∧
      (bl = true → PostAction.sendDoc buildLogPath Channel.errorChannel
          ∈ postBuildActions ⟨e, n, c, bl, banner⟩)) ∧
    (buildFailed ⟨e, n, c, bl, banner⟩ = false →
      postBuildActions ⟨e, n, c, bl, banner⟩ = [PostAction.successFlow]) := by
  refine ⟨rfl, rfl, by simp [buildFailed], ?_, ?_, ?_⟩
  · intro he hn
    simp [buildFailed, he, hn]
  · intro h
    refine ⟨?_, ?_, ?_⟩
    · simp only [postBuildActions, h, if_true]
      cases banner <;> simp
    · simp [postBuildActions, h]
    · intro hbl
      subst hbl
      simp [postBuildActions, h]
  · intro h
    simp [postBuildActions, h]

/-- Witness for the C5 theorem: zero exit code, non-empty error log, build
log present — classified as failure with both logs forwarded. -/
theorem build_failure_classification_witness :
    buildFailed ⟨true, 7, 0, true, false⟩ = true ∧
    PostAction.sendDoc errorLogPath Channel.errorChannel
      ∈ postBuildActions ⟨true, 7, 0, true, false⟩ ∧
    PostAction.sendDoc buildLogPath Channel.errorChannel
      ∈ postBuildActions ⟨true, 7, 0, true, false⟩ := by
  have h := build_failure_classification true true false 7 0 0
  have hfail := h.2.2.2.1 rfl (by decide)
  exact ⟨hfail, (h.2.2.2.2.1 hfail).2.1, (h.2.2.2.2.1 hfail).2.2 rfl⟩

/-! ## `monitor_progress` deduplication (ci_bot.py lines 409–440) -/

/-- One iteration of the monitor loop: compare the freshly extracted progress
string with the stored previous value (string equality); on inequality an
edit is issued and the stored value updated, on equality nothing is sent. -/
def monitorStep (prev current : String) : String × Bool :=
  if current ≠ prev then (current, true) else (prev, false)

/-- Run the monitor over the successive extracted progress strings, returning
the edit-issued flag of each iteration. -/
def monitorRun (prev : String) : List String → List Bool
  | [] => []
  | c :: rest => (monitorStep prev c).2 :: monitorRun (monitorStep prev c).1 rest

theorem monitorStep_fst (prev c : String) : (monitorStep prev c).1 = c := by
  unfold monitorStep
  split
  · rfl
  · next h => exact (not_not.mp h).symm

theorem monitorRun_cons (prev c : String) (rest : List String) :
    monitorRun prev (c :: rest) = decide (c ≠ prev) :: monitorRun c rest := by
  have h2 : (monitorStep prev c).2 = decide (c ≠ prev) := by
    unfold monitorStep
    split
    · next h => simp [h]
    · next h => simp [h]
  conv_lhs => rw [monitorRun]
  rw [monitorStep_fst, h2]

theorem monitorRun_get_succ : ∀ (polls : List String) (prev : String) (i : Nat),
    i + 1 < polls.length → polls[i]? = polls[i + 1]? →
    (monitorRun prev polls)[i + 1]? = some false := by
  intro polls
  induction polls with
  | nil =>
    intro prev i h
    simp at h
  | cons c rest ih =>
    intro prev i h heq
    rw [monitorRun_cons]
    cases i with
    | zero =>
      cases rest with
      | nil => simp at h
      | cons d rest2 =>
        simp only [List.getElem?_cons_zero, List.getElem?_cons_succ] at heq
        have hd : c = d := by
          simpa using heq
        subst hd
        rw [List.getElem?_cons_succ, monitorRun_cons]
        simp
    | succ j =>
      rw [List.getElem?_cons_succ]
      refine ih c j ?_ ?_
      · simpa using h
      · simpa using heq

/-- Claim C6: two consecutive polls extracting equal progress strings issue
at most one notification — the second of the two never notifies — and a poll
whose extracted value equals the stored previous value issues none. -/
theorem monitor_dedup (prev : String) (polls : List String) (i : Nat)
    (h : i + 1 < polls.length) (heq : polls[i]? = polls[i + 1]?) :
    ((monitorRun prev polls)[i + 1]? = some false) ∧
    (∀ bi b1 : Bool, (monitorRun prev polls)[i]? = some bi →
       (monitorRun prev polls)[i + 1]? = some b1 →
       (cond bi 1 0) + (cond b1 1 0) ≤ 1) ∧
    (∀ (p : String) (rest : List String), (monitorRun p (p :: rest))[0]? = some false) := by
  have h1 : (monitorRun prev polls)[i + 1]? = some false :=
    monitorRun_get_succ polls prev i h heq
  refine ⟨h1, ?_, ?_⟩
  · intro bi b1 hbi hb1
    rw [h1] at hb1
    cases hb1
    cases bi <;> simp
  · intro p rest
    rw [monitorRun_cons]
    simp

/-- Witness for the C6 theorem: two identical consecutive polls, the second
issues no edit. -/
theorem monitor_dedup_witness :
    (monitorRun "Initializing..." ["5% (1/20)", "5% (1/20)"])[1]? = some false :=
  (monitor_dedup "Initializing..." ["5% (1/20)", "5% (1/20)"] 0 (by decide) (by decide)).1

/-! ## `handle_interrupt` (ci_bot.py lines 594–622) -/

/-- Outward steps of the SIGINT handler. -/
inductive IAction where
  | terminateChild
  | editText (msg : String)
  | editCaption (msg : String)
  | removeFile (name : String)
  | exitWith (code : Nat)
deriving DecidableEq

/-- Process-wide state observed by `handle_interrupt`: whether the build
child exists, whether a status message was sent, whether it was a photo
banner, and which files currently exist in the root directory. -/
structure InterruptState where
  hasProcess : Bool
  hasMessageId : Bool
  useBanner : Bool
  existing : List String

/-- The interruption status text posted by `handle_interrupt`. -/
def interruptMsg (romName device : String) : String :=
  "⚠️ | <i>Build interrupted by user</i>\n\n<b>• ROM:</b> <code>" ++ romName ++
    "</code>\n<b>• DEVICE:</b> <code>" ++ device ++ "</code>\n\n<i>Build was cancelled</i>"

/-- The fixed cleanup list of `handle_interrupt`. -/
def cleanupFiles : List String :=
  ["build_banner.png", "github_avatar.png", "avatar_circle.png"]

/-- `handle_interrupt` from `ci_bot.py`: terminate the child when present,
edit the existing status message (caption when a banner was sent) to the
interrupted text, remove those of the cleanup files that exist, and exit the
process with code 130. -/
def handle_interrupt (romName device : String) (st : InterruptState) : List IAction :=
  (if st.hasProcess then [IAction.terminateChild] else []) ++
  (if st.hasMessageId then
    [if st.useBanner then IAction.editCaption (interruptMsg romName device)
     else IAction.editText (interruptMsg romName device)]
   else []) ++
  (cleanupFiles.filter (fun f => st.existing.contains f)).map IAction.removeFile ++
  [IAction.exitWith 130]

/-- Claim C7: on SIGINT with a live child and an existing status message, the
handler terminates the child, posts an interrupted status edit to the
existing message (the text contains "interrupted"), removes the generated
temporary image files from its cleanup list that exist, and finally exits
the process with code 130. -/
theorem handle_interrupt_spec (romName device : String) (st : InterruptState)
    (hp : st.hasProcess = true) (hm : st.hasMessageId = true) :
    IAction.terminateChild ∈ handle_interrupt romName device st ∧
    (if st.useBanner then IAction.editCaption (interruptMsg romName device)
       else IAction.editText (interruptMsg romName device))
      ∈ handle_interrupt romName device st ∧
    containsSub (interruptMsg romName device) "interrupted" = true ∧
    (∀ f ∈ cleanupFiles, st.existing.contains f = true →
       IAction.removeFile f ∈ handle_interrupt romName device st) ∧
    (handle_interrupt romName device st).getLast? = some (IAction.exitWith 130) := by
  refine ⟨?_, ?_, ?_, ?_, ?_⟩
  · simp [handle_interrupt, hp]
  · cases hb : st.useBanner <;> simp [handle_interrupt, hp, hm, hb]
  · show containsSub (("⚠️ | <i>Build interrupted by user</i>\n\n<b>• ROM:</b> <code>" ++
      romName ++ "</code>\n<b>• DEVICE:</b> <code>" ++ device ++
      "</code>\n\n<i>Build was cancelled</i>")) "interrupted" = true
    exact containsSub_append_left _ _ _ (containsSub_append_left _ _ _
      (containsSub_append_left _ _ _ (containsSub_append_left _ _ _ (by decide))))
  · intro f hf hex
    have hmem : IAction.removeFile f ∈
        (cleanupFiles.filter (fun g => st.existing.contains g)).map IAction.removeFile :=
      List.mem_map_of_mem _ (List.mem_filter.mpr ⟨hf, hex⟩)
    unfold handle_interrupt
    exact List.mem_append.mpr (Or.inl (List.mem_append.mpr (Or.inr hmem)))
  · unfold handle_interrupt
    exact List.getLast?_concat _

/-- Witness for the C7 theorem at a concrete interrupt state. -/
theorem handle_interrupt_witness :
    IAction.terminateChild ∈ handle_interrupt "Axion" "cancunf"
      ⟨true, true, false, ["build_banner.png"]⟩ ∧
    (handle_interrupt "Axion" "cancunf" ⟨true, true, false, ["build_banner.png"]⟩).getLast?
      = some (IAction.exitWith 130) := by
  have h := handle_interrupt_spec "Axion" "cancunf"
    ⟨true, true, false, ["build_banner.png"]⟩ rfl rfl
  exact ⟨h.1, h.2.2.2.2⟩

/-! ## `edit_message` and `edit_photo_caption` (ci_bot.py lines 135–182) -/

/-- Outcome of an API edit call as observed by the `try` block: a raised
network error, or a parsed response with its `ok` flag and optional error
`description`. -/
inductive ApiOutcome where
  | netError (msg : String)
  | response (ok : Bool) (description : Option String)

/-- `edit_message` from `ci_bot.py`, modelled as the console error line it
prints (`none` when nothing is logged).  The function always returns
normally: a network failure and a service failure both end in a print, and a
failed response whose description contains `"not modified"` is silently
ignored. -/
def edit_message (o : ApiOutcome) : Option String :=
  match o with
  | .netError m => some ("Error editing message: " ++ m)
  | .response ok desc =>
    if !ok && !(containsSub (desc.getD "") "not modified") then
      some ("Error editing message: " ++ desc.getD "None")
    else none

/-- `edit_photo_caption` from `ci_bot.py`, same structure as `edit_message`
with its own console prefix. -/
def edit_photo_caption (o : ApiOutcome) : Option String :=
  match o with
  | .netError m => some ("Error editing caption: " ++ m)
  | .response ok desc =>
    if !ok && !(containsSub (desc.getD "") "not modified") then
      some ("Error editing caption: " ++ desc.getD "None")
    else none

/-- Claim C9: both edit operations treat a response whose description
contains "not modified" as a non-error (nothing logged, and by construction
the model returns normally), log nothing on a successful response, and log
every network error and every other failed response while still returning
normally — a notification failure never escapes. -/
theorem edit_swallows_not_modified (ok : Bool) (desc : Option String) (m : String) :
    (containsSub (desc.getD "") "not modified" = true →
       edit_message (.response ok desc) = none ∧
       edit_photo_caption (.response ok desc) = none) ∧
    (edit_message (.response true desc) = none ∧
       edit_photo_caption (.response true desc) = none) ∧
    ((edit_message (.netError m)).isSome = true ∧
       (edit_photo_caption (.netError m)).isSome = true) ∧
    (ok = false → containsSub (desc.getD "") "not modified" = false →
       (edit_message (.response ok desc)).isSome = true ∧
       (edit_photo_caption (.response ok desc)).isSome = true) := by
  refine ⟨?_, ?_, ?_, ?_⟩
  · intro h
    simp [edit_message, edit_photo_caption, h]
  · simp [edit_message, edit_photo_caption]
  · simp [edit_message, edit_photo_caption]
  · intro h1 h2
    simp [edit_message, edit_photo_caption, h1, h2]

/-- Witness for the C9 theorem: a failed edit whose description reports
"message is not modified" logs nothing. -/
theorem edit_swallows_not_modified_witness :
    edit_message (.response false (some "Bad Request: message is not modified")) = none :=
  ((edit_swallows_not_modified false (some "Bad Request: message is not modified") "").1
    (by decide)).1

/-! ## `create_download_buttons` (ci_bot.py lines 184–208) -/

/-- One inline-keyboard button: a label and a url. -/
structure Button where
  text : String
  url : String
deriving DecidableEq

/-- Python `str.replace` on character lists, left to right, non-overlapping;
`fuel` bounds the scanned positions (the callers pass the input length, which
suffices for the nonempty patterns used here). -/
def replaceFuel (pat rep : List Char) : Nat → List Char → List Char
  | _, [] => []
  | 0, l => l
  | fuel + 1, c :: t =>
    if pat ≠ [] ∧ pat.isPrefixOf (c :: t) then
      rep ++ replaceFuel pat rep fuel ((c :: t).drop pat.length)
    else c :: replaceFuel pat rep fuel t

/-- Python `s.replace(pat, rep)` on strings for nonempty patterns. -/
def replaceStr (s pat rep : String) : String :=
  ⟨replaceFuel pat.data rep.data s.data.length s.data⟩

/-- Python `str.title()` restricted to ASCII: uppercase each letter that
follows a non-letter, lowercase every other letter. -/
def pyTitleAux : Bool → List Char → List Char
  | _, [] => []
  | prevAlpha, c :: cs =>
    (if c.isAlpha then (if prevAlpha then c.toLower else c.toUpper) else c) ::
      pyTitleAux c.isAlpha cs

/-- Python `s.title()` on a string. -/
def pyTitle (s : String) : String :=
  ⟨pyTitleAux false s.data⟩

/-- Label of a boot-image button: drop `".img"`, replace underscores with
spaces and title-case the result. -/
def bootButtonText (imgName : String) : String :=
  pyTitle (replaceStr (replaceStr imgName ".img" "") "_" " ")

/-- The ROM download button, always the sole button of the first row. -/
def romButton (romUrl : String) : Button :=
  ⟨"📥 Download ROM", romUrl⟩

/-- A boot-image button from one `(name, url)` entry. -/
def mkBootButton (p : String × String) : Button :=
  ⟨bootButtonText p.1, p.2⟩

/-- The row grouping of the boot-image loop: flush a row at two buttons, then
append the remaining single button, if any, as a final row. -/
def chunkPairs {α : Type} : List α → List (List α)
  | [] => []
  | [a] => [[a]]
  | a :: b :: rest => [a, b] :: chunkPairs rest

/-- `create_download_buttons` from `ci_bot.py`: the ROM button alone first,
then the boot-image buttons (in dict insertion order) two per row. -/
def create_download_buttons (romUrl : String) (bootImages : List (String × String)) :
    List (List Button) :=
  [romButton romUrl] ::
    (if bootImages.isEmpty then [] else chunkPairs (bootImages.map mkBootButton))

theorem chunkPairs_length {α : Type} : ∀ l : List α, (chunkPairs l).length = (l.length + 1) / 2
  | [] => by simp [chunkPairs]
  | [a] => by simp [chunkPairs]
  | a :: b :: rest => by
    simp only [chunkPairs, List.length_cons, chunkPairs_length rest]
    omega

theorem chunkPairs_flatten {α : Type} : ∀ l : List α, (chunkPairs l).flatten = l
  | [] => by simp [chunkPairs]
  | [a] => by simp [chunkPairs]
  | a :: b :: rest => by
    simp [chunkPairs, chunkPairs_flatten rest]

theorem chunkPairs_shape {α : Type} :
    ∀ (l : List α), ∀ r ∈ chunkPairs l, r.length = 2 ∨ r.length = 1
  | [], r, hr => absurd hr (by simp [chunkPairs])
  | [a], r, hr => by
    simp only [chunkPairs, List.mem_singleton] at hr
    exact Or.inr (by simp [hr])
  | a :: b :: rest, r, hr => by
    simp only [chunkPairs, List.mem_cons] at hr
    rcases hr with rfl | hr
    · exact Or.inl rfl
    · exact chunkPairs_shape rest r hr

theorem chunkPairs_even {α : Type} :
    ∀ (l : List α), l.length % 2 = 0 → ∀ r ∈ chunkPairs l, r.length = 2
  | [], _, r, hr => absurd hr (by simp [chunkPairs])
  | [a], h, r, hr => by simp at h
  | a :: b :: rest, h, r, hr => by
    simp only [chunkPairs, List.mem_cons] at hr
    rcases hr with rfl | hr
    · rfl
    · refine chunkPairs_even rest ?_ r hr
      simp only [List.length_cons] at h
      omega

theorem chunkPairs_odd {α : Type} : ∀ (l : List α), l.length % 2 = 1 →
    ∃ (init : List (List α)) (z : α), chunkPairs l = init ++ [[z]] ∧
      ∀ x ∈ init, x.length = 2
  | [], h => by simp at h
  | [a], _ => ⟨[], a, rfl, by simp⟩
  | a :: b :: rest, h => by
    have hrest : rest.length % 2 = 1 := by
      simp only [List.length_cons] at h
      omega
    obtain ⟨init, z, heq, hall⟩ := chunkPairs_odd rest hrest
    refine ⟨[a, b] :: init, z, by simp [chunkPairs, heq], ?_⟩
    intro x hx
    rcases List.mem_cons.mp hx with rfl | hx
    · rfl
    · exact hall x hx

/-- Claim C8: the constructed keyboard has the ROM download button alone in
its first row, the `n` boot-image buttons grouped two per row in insertion
order below it (a final row of one when `n` is odd), for `1 + ceil(n/2)`
rows in total. -/
theorem create_download_buttons_spec (romUrl : String)
    (bootImages : List (String × String)) :
    (create_download_buttons romUrl bootImages).length
        = 1 + (bootImages.length + 1) / 2 ∧
    (create_download_buttons romUrl bootImages).head? = some [romButton romUrl] ∧
    (create_download_buttons romUrl bootImages).tail.flatten = bootImages.map mkBootButton ∧
    (∀ r ∈ (create_download_buttons romUrl bootImages).tail,
       r.length = 2 ∨ r.length = 1) ∧
    (bootImages.length % 2 = 0 →
       ∀ r ∈ (create_download_buttons romUrl bootImages).tail, r.length = 2) ∧
    (bootImages.length % 2 = 1 →
       ∃ (init : List (List Button)) (z : Button),
         (create_download_buttons romUrl bootImages).tail = init ++ [[z]] ∧
         ∀ x ∈ init, x.length = 2) := by
  cases hb : bootImages.isEmpty
  · have htail : (create_download_buttons romUrl bootImages).tail
        = chunkPairs (bootImages.map mkBootButton) := by
      simp [create_download_buttons, hb]
    refine ⟨?_, rfl, ?_, ?_, ?_, ?_⟩
    · simp only [create_download_buttons, hb, Bool.false_eq_true, if_false, List.length_cons,
        chunkPairs_length, List.length_map]
      omega
    · rw [htail, chunkPairs_flatten]
    · rw [htail]
      exact chunkPairs_shape _
    · intro hev
      rw [htail]
      refine chunkPairs_even _ ?_
      simpa using hev
    · intro hodd
      rw [htail]
      refine chunkPairs_odd _ ?_
      simpa using hodd
  · have hnil : bootImages = [] := List.isEmpty_iff.mp hb
    subst hnil
    refine ⟨rfl, rfl, rfl, by simp [create_download_buttons], ?_, ?_⟩
    · intro _ r hr
      simp [create_download_buttons] at hr
    · intro h
      simp at h

/-- Witness for the C8 theorem: three boot images give three rows, the boot
rows being one pair and one final single. -/
theorem create_download_buttons_witness :
    (create_download_buttons "https://rom"
      [("vendor_boot.img", "https://v"), ("boot.img", "https://b"),
       ("init_boot.img", "https://i")]).length = 3 ∧
    ∃ (init : List (List Button)) (z : Button),
      (create_download_buttons "https://rom"
        [("vendor_boot.img", "https://v"), ("boot.img", "https://b"),
         ("init_boot.img", "https://i")]).tail = init ++ [[z]] ∧
      ∀ x ∈ init, x.length = 2 := by
  have h := create_download_buttons_spec "https://rom"
    [("vendor_boot.img", "https://v"), ("boot.img", "https://b"),
     ("init_boot.img", "https://i")]
  exact ⟨h.1, h.2.2.2.2.2 (by decide)⟩

end CiBot
